import Mathlib

/-!
Verification of the link-layer connection manager specification of
android_packages_modules_Bluetooth against the repository's code.

The repository ships two sources relevant here:
* system/gd/hci/acl_manager_test.cc — the tests of the ACL connection
  manager (the manager implementation itself, acl_manager.cc, is not part
  of the source tree given, so the manager is modelled from the spec,
  §4.1–§4.5, with each definition noting what it models);
* system/bta/ras/ras_client.cc — the Ranging Service client, translated
  directly.

Machine integers (uint16_t handles, uint32_t counters) are modelled as
Nat: none of the verified operations can overflow or rely on wrap-around.
-/

namespace AclSpec

/-- Modelled from the spec (§4.1 Credit Pool): the controller's outbound
buffer accounting — `total` is the capacity fixed at session start
(`initialize(total_buffers)`), `available` the credits currently free.
acl_manager.cc is not under src/, so this component is modelled from the
spec's contract. -/
structure CreditPool where
  total : Nat
  available : Nat

/-- Modelled from the spec (§4.1): `initialize(total_buffers)` sets capacity
once at startup from the controller capability query
(TestController::total_acl_buffers_ in the test); all credits start free. -/
def CreditPool.init (total_buffers : Nat) : CreditPool :=
  { total := total_buffers, available := total_buffers }

/-- Modelled from the spec (§4.1): `try_charge() -> bool` decrements
available credits by one iff available > 0, else returns false without
side effect. -/
def CreditPool.try_charge (p : CreditPool) : Bool × CreditPool :=
  if 0 < p.available then (true, { p with available := p.available - 1 })
  else (false, p)

/-- Modelled from the spec (§4.1): `replenish(count)` increments available
credits by `count`, clamped so it never exceeds total capacity. -/
def CreditPool.replenish (p : CreditPool) (count : Nat) : CreditPool :=
  { p with available := min (p.available + count) p.total }

/-- An operation on the credit pool: one `try_charge` attempt or one
`replenish(count)`. -/
inductive PoolOp where
  | charge : PoolOp
  | replenish (count : Nat) : PoolOp

/-- Run a sequence of credit-pool operations. -/
def CreditPool.run (p : CreditPool) : List PoolOp → CreditPool
  | [] => p
  | PoolOp.charge :: ops => (p.try_charge).2.run ops
  | PoolOp.replenish c :: ops => (p.replenish c).run ops

/-- Modelled from the spec (§4.4 Outbound Data Scheduler, single link):
the shared credit pool, the link's FIFO outbound queue, and the list of
payloads already forwarded to the transport, in forwarding order.
acl_manager.cc is not under src/, so this component is modelled from the
spec's contract; payloads are abstracted to Nat (NextPayload numbers). -/
structure SchedState where
  pool : CreditPool
  send_queue : List Nat
  sent : List Nat

/-- Modelled from the spec (§4.4): `drain_one` — if the queue is non-empty
and `try_charge` succeeds, pop one payload, forward it to the transport and
return true; otherwise return false with the queue intact. -/
def drain_one (s : SchedState) : Bool × SchedState :=
  match s.send_queue with
  | [] => (false, s)
  | payload :: rest =>
    match s.pool.try_charge with
    | (true, pool2) =>
      (true, { pool := pool2, send_queue := rest, sent := s.sent ++ [payload] })
    | (false, _) => (false, s)

/-- Drain repeatedly until `drain_one` reports no progress; the fuel is the
queue length, which bounds the number of successful drains. -/
def drain_loop : Nat → SchedState → SchedState
  | 0, s => s
  | Nat.succ n, s =>
    match drain_one s with
    | (true, s2) => drain_loop n s2
    | (false, _) => s

/-- A drain trigger (spec §4.4: fired on every enqueue and every credit
replenishment). -/
def drain (s : SchedState) : SchedState :=
  drain_loop s.send_queue.length s

/-- Modelled from the spec (§4.4): `enqueue` appends to the link's outbound
queue and attempts immediate drain. -/
def enqueue (s : SchedState) (payload : Nat) : SchedState :=
  drain { s with send_queue := s.send_queue ++ [payload] }

/-- Modelled from the spec (§4.1/§4.4): an "N packets completed" event for
this link replenishes the pool and triggers a drain
(TestController::CompletePackets in the test). -/
def on_packets_completed (s : SchedState) (count : Nat) : SchedState :=
  drain { s with pool := s.pool.replenish count }

/-- An interleaving step for a single link: an application enqueue or a
credit-replenishment completion event. -/
inductive SchedEvent where
  | enq (payload : Nat) : SchedEvent
  | completed (count : Nat) : SchedEvent

/-- Run an interleaving of enqueues and completion events. -/
def run_sched (s : SchedState) : List SchedEvent → SchedState
  | [] => s
  | SchedEvent.enq p :: es => run_sched (enqueue s p) es
  | SchedEvent.completed c :: es => run_sched (on_packets_completed s c) es

/-- The payloads enqueued by an interleaving, in submission order. -/
def enqueued : List SchedEvent → List Nat
  | [] => []
  | SchedEvent.enq p :: es => p :: enqueued es
  | SchedEvent.completed _ :: es => enqueued es

/-- The scheduler state at session start for a controller reporting
`total_buffers` outbound buffers. -/
def sched_init (total_buffers : Nat) : SchedState :=
  { pool := CreditPool.init total_buffers, send_queue := [], sent := [] }

/-- Modelled from the spec (§4.3): the per-link lifecycle state. The
terminal `disconnected` record stays in the registry until released, but
its handle no longer resolves. Addresses and handles are Nat. -/
inductive LinkState where
  | connecting : LinkState
  | connected (handle : Nat) : LinkState
  | disconnected : LinkState
deriving DecidableEq

/-- Modelled from the spec (§3): a Connection record — remote identity plus
lifecycle state (handle held inside the `connected` state). -/
structure ConnRecord where
  identity : Nat
  state : LinkState

/-- Modelled from the spec (§6): the HCI commands the manager emits to the
link-control transport, as observed by TestHciLayer::GetLastCommand. -/
inductive HciCommand where
  | create_connection (address : Nat) : HciCommand
  | accept_connection_request (address : Nat) : HciCommand
  | reject_connection_request (address : Nat) : HciCommand
  | change_connection_packet_type (handle : Nat) (packet_type : Nat) : HciCommand

/-- Modelled from the spec (§6): the application-facing callback
invocations — global connect success/failure, the per-link disconnect
callback, and the per-link management completion callback
(ConnectionManagementCallbacks::OnConnectionPacketTypeChanged). -/
inductive AppCallback where
  | on_connect_success (identity : Nat) (handle : Nat) : AppCallback
  | on_connect_fail (identity : Nat) (error_code : Nat) : AppCallback
  | on_disconnect (identity : Nat) (reason : Nat) : AppCallback
  | on_packet_type_changed (identity : Nat) (packet_type : Nat) : AppCallback

/-- Modelled from the spec (§4.5 Connection Manager): the Link Registry,
whether global connection callbacks were registered, the commands emitted
to the transport (in order) and the application callbacks invoked (in
order). acl_manager.cc is not under src/, so the manager is modelled from
the spec's contract. -/
structure Manager where
  records : List ConnRecord
  callbacks_registered : Bool
  commands : List HciCommand
  invoked : List AppCallback

/-- Modelled from the spec (§4.2): `lookup_by_identity` — first record for
the given remote identity, used by connect deduplication. -/
def lookup_by_identity : List ConnRecord → Nat → Option ConnRecord
  | [], _ => none
  | r :: rs, a =>
    if r.identity = a then some r else lookup_by_identity rs a

/-- Modelled from the spec (§4.2): `lookup_by_handle` — resolves a handle
to a record only while the link is live (connected); a stale or unknown
handle resolves to nothing. -/
def lookup_by_handle : List ConnRecord → Nat → Option ConnRecord
  | [], _ => none
  | r :: rs, h =>
    if r.state = LinkState.connected h then some r else lookup_by_handle rs h

/-- Modelled from the spec (§4.2): `promote` — transition the pending entry
for the identity to an active, handle-keyed record. -/
def promote : List ConnRecord → Nat → Nat → List ConnRecord
  | [], _, _ => []
  | r :: rs, a, h =>
    if r.identity = a then { r with state := LinkState.connected h } :: rs
    else r :: promote rs a h

/-- Modelled from the spec (§4.3): on a failure completion no handle was
ever assigned, so the pending record is removed immediately. -/
def remove_by_identity : List ConnRecord → Nat → List ConnRecord
  | [], _ => []
  | r :: rs, a =>
    if r.identity = a then remove_by_identity rs a
    else r :: remove_by_identity rs a

/-- Modelled from the spec (§4.3): on disconnection-complete the record
reaches the terminal `disconnected` state; the handle stops resolving. -/
def mark_disconnected : List ConnRecord → Nat → List ConnRecord
  | [], _ => []
  | r :: rs, h =>
    if r.state = LinkState.connected h then
      { r with state := LinkState.disconnected } :: mark_disconnected rs h
    else r :: mark_disconnected rs h

/-- The manager before any activity: empty registry, no global callbacks
registered, nothing emitted. -/
def Manager.empty : Manager :=
  { records := [], callbacks_registered := false, commands := [], invoked := [] }

/-- Modelled from the spec (§4.5): `register_callbacks` records global
connection interest (AclManager::RegisterCallbacks in the test). -/
def register_callbacks (m : Manager) : Manager :=
  { m with callbacks_registered := true }

/-- Modelled from the spec (§4.3 Idle → Connecting): a local connect
request creates a pending record under `reserve_pending` and emits a
connect command carrying the address; a duplicate request for an identity
already present is a typed error with no transport round trip
(AclManager::CreateConnection in the test). -/
def create_connection (m : Manager) (address : Nat) : Manager :=
  match lookup_by_identity m.records address with
  | some _ => m
  | none =>
    { m with
      records := m.records ++ [{ identity := address, state := LinkState.connecting }],
      commands := m.commands ++ [HciCommand.create_connection address] }

/-- Modelled from the spec (§4.3): the connection-complete event. With a
matching pending identity: on status SUCCESS (0) the record is promoted to
the handle — unless the handle is already active (protocol violation,
ignored) — and the success callback fires with the link capability; on a
failure status the failure callback fires with the carried code and the
record is removed. Without a matching pending identity the event is logged
and discarded. -/
def on_connection_complete (m : Manager) (status handle address : Nat) : Manager :=
  match lookup_by_identity m.records address with
  | some r =>
    if r.state = LinkState.connecting then
      if status = 0 then
        match lookup_by_handle m.records handle with
        | some _ => m
        | none =>
          { m with
            records := promote m.records address handle,
            invoked := m.invoked ++ [AppCallback.on_connect_success address handle] }
      else
        { m with
          records := remove_by_identity m.records address,
          invoked := m.invoked ++ [AppCallback.on_connect_fail address status] }
    else m
  | none => m

/-- Modelled from the spec (§4.3 unsolicited Idle → Connected): an incoming
connection-request event. With no registered global callbacks the stack
issues a reject command and never creates a record; with callbacks it
accepts (pending record as in the local path, but no preceding local
command). -/
def on_incoming_connection_request (m : Manager) (address : Nat) : Manager :=
  if m.callbacks_registered then
    match lookup_by_identity m.records address with
    | some _ => { m with commands := m.commands ++ [HciCommand.accept_connection_request address] }
    | none =>
      { m with
        records := m.records ++ [{ identity := address, state := LinkState.connecting }],
        commands := m.commands ++ [HciCommand.accept_connection_request address] }
  else
    { m with commands := m.commands ++ [HciCommand.reject_connection_request address] }

/-- Modelled from the spec (§4.3): the disconnection-complete event — if
the handle resolves to a live record, the per-link disconnect callback
fires with the carried reason code and the record reaches `disconnected`;
a stale or unknown handle is inert. -/
def on_disconnection_complete (m : Manager) (handle reason : Nat) : Manager :=
  match lookup_by_handle m.records handle with
  | some r =>
    { m with
      records := mark_disconnected m.records handle,
      invoked := m.invoked ++ [AppCallback.on_disconnect r.identity reason] }
  | none => m

/-- Modelled from the spec (§4.3): a per-link management operation
(AclConnection::ChangeConnectionPacketType in the test) — on a connected
link, issue exactly one command carrying the link's handle and the field
value; any non-connected state is a typed "link not connected" error. -/
def change_connection_packet_type (m : Manager) (address packet_type : Nat) : Manager :=
  match lookup_by_identity m.records address with
  | some r =>
    match r.state with
    | LinkState.connected h =>
      { m with commands := m.commands ++ [HciCommand.change_connection_packet_type h packet_type] }
    | _ => m
  | none => m

/-- Modelled from the spec (§4.3): the management completion event
(ConnectionPacketTypeChanged) — look the link up by the handle embedded in
the event payload and invoke that link's callback with the decoded value;
an unknown handle is logged and discarded. -/
def on_packet_type_changed (m : Manager) (handle packet_type : Nat) : Manager :=
  match lookup_by_handle m.records handle with
  | some r =>
    { m with invoked := m.invoked ++ [AppCallback.on_packet_type_changed r.identity packet_type] }
  | none => m

/-- A later event referencing a fixed (possibly stale) handle: another
disconnection-complete or a management completion. -/
inductive HandleEvent where
  | disconnection_complete (reason : Nat) : HandleEvent
  | packet_type_changed (packet_type : Nat) : HandleEvent

/-- Deliver a sequence of events all referencing the same handle. -/
def run_handle_events (m : Manager) (handle : Nat) : List HandleEvent → Manager
  | [] => m
  | HandleEvent.disconnection_complete r :: es =>
    run_handle_events (on_disconnection_complete m handle r) handle es
  | HandleEvent.packet_type_changed v :: es =>
    run_handle_events (on_packet_type_changed m handle v) handle es

end AclSpec

namespace Ras

/-- From src/system/bta/ras/ras_client.cc: a RasTracker holds the resolved
address it was created with (`address_`) and the GATT connection id
assigned later by OnGattConnected (`conn_id_`, uninitialized at
construction, modelled as `none`). The GATT service fields do not affect
the verified operations. Addresses are modelled as Nat. -/
structure RasTracker where
  address_ : Nat
  conn_id_ : Option Nat

/-- From src: RasClientImpl::FindTrackerByAddress — first tracker in
`trackers_` whose `address_` equals the given address, else null. -/
def FindTrackerByAddress : List RasTracker → Nat → Option RasTracker
  | [], _ => none
  | t :: ts, a =>
    if t.address_ = a then some t else FindTrackerByAddress ts a

/-- From src: RasClientImpl::Connect — resolve the address
(ResolveAddress / maybe_resolve_address, an external collaborator passed
here as `resolve`), and append a fresh tracker for the resolved address
only when FindTrackerByAddress finds none; BTA_GATTC_Open is an external
effect with no bearing on `trackers_`. -/
def Connect (resolve : Nat → Nat) (trackers : List RasTracker) (address : Nat) : List RasTracker :=
  let resolved := resolve address
  match FindTrackerByAddress trackers resolved with
  | some _ => trackers
  | none => trackers ++ [{ address_ := resolved, conn_id_ := none }]

/-- From src: the file-scope pointer `RasClientImpl* instance` (null before
the first GetRasClient call) together with an allocation counter modelling
`new RasClientImpl()`; a pointer is an allocation id, `none` is nullptr. -/
structure RasGlobal where
  inst : Option Nat
  next_alloc : Nat

/-- From src: bluetooth::ras::GetRasClient — if `instance` is null,
allocate a RasClientImpl and store it; return `instance`. -/
def GetRasClient (g : RasGlobal) : Option Nat × RasGlobal :=
  match g.inst with
  | none => (some g.next_alloc, { inst := some g.next_alloc, next_alloc := g.next_alloc + 1 })
  | some p => (some p, g)

/-- The result and state after the k-th successive GetRasClient call
(k = 0 is the first call). -/
def run_get (g : RasGlobal) : Nat → Option Nat × RasGlobal
  | 0 => GetRasClient g
  | Nat.succ k => GetRasClient (run_get g k).2

end Ras

namespace AclSpec

theorem credit_run_bounds (ops : List PoolOp) (p : CreditPool)
    (h : p.available ≤ p.total) :
    (p.run ops).available ≤ p.total ∧ (p.run ops).total = p.total := by
  induction ops generalizing p with
  | nil => exact ⟨h, rfl⟩
  | cons op ops ih =>
    cases op with
    | charge =>
      by_cases hp : 0 < p.available
      · have step := ih { p with available := p.available - 1 } (by simp; omega)
        simpa [CreditPool.run, CreditPool.try_charge, hp] using step
      · have step := ih p h
        simpa [CreditPool.run, CreditPool.try_charge, hp] using step
    | replenish c =>
      have step := ih { p with available := min (p.available + c) p.total } (by simp)
      simpa [CreditPool.run, CreditPool.replenish] using step

/-- C1: for every sequence of try_charge/replenish operations from
initialization, the available-credit count stays within [0, total_capacity]
(Nat is never negative) and the capacity is never mutated; try_charge on an
empty pool returns false with no side effect, on a non-empty pool it
decrements by one; replenish adds its count clamped to the capacity. -/
theorem credit_pool_within_bounds (total : Nat) (ops : List PoolOp) (t a c : Nat) :
    ((CreditPool.init total).run ops).available ≤ total
    ∧ ((CreditPool.init total).run ops).total = total
    ∧ (CreditPool.mk t 0).try_charge = (false, CreditPool.mk t 0)
    ∧ (CreditPool.mk t (a + 1)).try_charge = (true, CreditPool.mk t a)
    ∧ ((CreditPool.mk t a).replenish c).available = min (a + c) t := by
  have hrun := credit_run_bounds ops (CreditPool.init total) (by simp [CreditPool.init])
  refine ⟨?_, ?_, ?_, ?_, rfl⟩
  · simpa [CreditPool.init] using hrun.1
  · simpa [CreditPool.init] using hrun.2
  · simp [CreditPool.try_charge]
  · simp [CreditPool.try_charge]

theorem drain_one_sent_queue (s : SchedState) :
    (drain_one s).2.sent ++ (drain_one s).2.send_queue = s.sent ++ s.send_queue := by
  rcases s with ⟨pool, queue, sent⟩
  cases queue with
  | nil => rfl
  | cons p rest =>
    rcases h : pool.try_charge with ⟨b, pool2⟩
    cases b <;> simp [drain_one, h]

theorem drain_loop_sent_queue (n : Nat) (s : SchedState) :
    (drain_loop n s).sent ++ (drain_loop n s).send_queue = s.sent ++ s.send_queue := by
  induction n generalizing s with
  | zero => rfl
  | succ n ih =>
    have hone := drain_one_sent_queue s
    rw [drain_loop]
    rcases h : drain_one s with ⟨b, s2⟩
    rw [h] at hone
    cases b
    · rfl
    · rw [ih s2]
      exact hone

theorem drain_sent_queue (s : SchedState) :
    (drain s).sent ++ (drain s).send_queue = s.sent ++ s.send_queue :=
  drain_loop_sent_queue _ s

theorem run_sched_sent_queue (es : List SchedEvent) (s : SchedState) :
    (run_sched s es).sent ++ (run_sched s es).send_queue
      = s.sent ++ s.send_queue ++ enqueued es := by
  induction es generalizing s with
  | nil => simp [run_sched, enqueued]
  | cons e es ih =>
    cases e with
    | enq p =>
      rw [run_sched, ih, enqueued]
      have hd : (enqueue s p).sent ++ (enqueue s p).send_queue
          = s.sent ++ (s.send_queue ++ [p]) := by
        unfold enqueue
        rw [drain_sent_queue]
      rw [hd]
      simp
    | completed c =>
      rw [run_sched, ih, enqueued]
      have hd : (on_packets_completed s c).sent ++ (on_packets_completed s c).send_queue
          = s.sent ++ s.send_queue := by
        unfold on_packets_completed
        rw [drain_sent_queue]
      rw [hd]

/-- C8: for a single link and every interleaving of enqueues and
credit-replenishment events, the payloads forwarded to the transport
followed by the payloads still queued are exactly the enqueued payloads in
submission order — transmission is FIFO and nothing is lost while waiting
for credit. -/
theorem single_link_fifo (total_buffers : Nat) (es : List SchedEvent) :
    (run_sched (sched_init total_buffers) es).sent
      ++ (run_sched (sched_init total_buffers) es).send_queue = enqueued es := by
  have h := run_sched_sent_queue es (sched_init total_buffers)
  simpa [sched_init] using h

/-- C2: with a controller reporting 2 total outbound buffers, enqueueing 3
payloads on one connected link forwards exactly the first 2 to the
transport and leaves the 3rd queued; delivering a "1 packet completed"
replenishment event afterwards forwards the 3rd and empties the queue. -/
theorem acl_send_data_credits_scenario :
    (enqueue (enqueue (enqueue (sched_init 2) 1) 2) 3).sent = [1, 2]
    ∧ (enqueue (enqueue (enqueue (sched_init 2) 1) 2) 3).send_queue = [3]
    ∧ (on_packets_completed (enqueue (enqueue (enqueue (sched_init 2) 1) 2) 3) 1).sent
        = [1, 2, 3]
    ∧ (on_packets_completed (enqueue (enqueue (enqueue (sched_init 2) 1) 2) 3) 1).send_queue
        = [] :=
  ⟨rfl, rfl, rfl, rfl⟩

theorem lookup_by_identity_append_none (rs l : List ConnRecord) (a : Nat)
    (h : lookup_by_identity rs a = none) :
    lookup_by_identity (rs ++ l) a = lookup_by_identity l a := by
  induction rs with
  | nil => rfl
  | cons r rs ih =>
    rw [lookup_by_identity] at h
    by_cases hr : r.identity = a
    · rw [if_pos hr] at h
      cases h
    · rw [if_neg hr] at h
      rw [List.cons_append, lookup_by_identity, if_neg hr]
      exact ih h

theorem lookup_by_handle_append_none (rs l : List ConnRecord) (hnd : Nat)
    (h : lookup_by_handle rs hnd = none) :
    lookup_by_handle (rs ++ l) hnd = lookup_by_handle l hnd := by
  induction rs with
  | nil => rfl
  | cons r rs ih =>
    rw [lookup_by_handle] at h
    by_cases hr : r.state = LinkState.connected hnd
    · rw [if_pos hr] at h
      cases h
    · rw [if_neg hr] at h
      rw [List.cons_append, lookup_by_handle, if_neg hr]
      exact ih h

theorem promote_append_none (rs l : List ConnRecord) (a hnd : Nat)
    (h : lookup_by_identity rs a = none) :
    promote (rs ++ l) a hnd = rs ++ promote l a hnd := by
  induction rs with
  | nil => rfl
  | cons r rs ih =>
    rw [lookup_by_identity] at h
    by_cases hr : r.identity = a
    · rw [if_pos hr] at h
      cases h
    · rw [if_neg hr] at h
      rw [List.cons_append, promote, if_neg hr, ih h, List.cons_append]

theorem remove_by_identity_append_none (rs l : List ConnRecord) (a : Nat)
    (h : lookup_by_identity rs a = none) :
    remove_by_identity (rs ++ l) a = rs ++ remove_by_identity l a := by
  induction rs with
  | nil => rfl
  | cons r rs ih =>
    rw [lookup_by_identity] at h
    by_cases hr : r.identity = a
    · rw [if_pos hr] at h
      cases h
    · rw [if_neg hr] at h
      rw [List.cons_append, remove_by_identity, if_neg hr, ih h, List.cons_append]

theorem lookup_remove_by_identity (rs : List ConnRecord) (a : Nat) :
    lookup_by_identity (remove_by_identity rs a) a = none := by
  induction rs with
  | nil => rfl
  | cons r rs ih =>
    by_cases hr : r.identity = a
    · rw [remove_by_identity, if_pos hr]
      exact ih
    · rw [remove_by_identity, if_neg hr, lookup_by_identity, if_neg hr]
      exact ih

theorem lookup_mark_disconnected (rs : List ConnRecord) (hnd : Nat) :
    lookup_by_handle (mark_disconnected rs hnd) hnd = none := by
  induction rs with
  | nil => rfl
  | cons r rs ih =>
    by_cases hr : r.state = LinkState.connected hnd
    · rw [mark_disconnected, if_pos hr, lookup_by_handle, if_neg (by simp)]
      exact ih
    · rw [mark_disconnected, if_neg hr, lookup_by_handle, if_neg hr]
      exact ih

theorem handle_events_inert (m : Manager) (hnd : Nat) (es : List HandleEvent)
    (hnone : lookup_by_handle m.records hnd = none) :
    run_handle_events m hnd es = m := by
  induction es with
  | nil => rfl
  | cons e es ih =>
    cases e with
    | disconnection_complete r =>
      rw [run_handle_events]
      have : on_disconnection_complete m hnd r = m := by
        rw [on_disconnection_complete, hnone]
      rw [this, ih]
    | packet_type_changed v =>
      rw [run_handle_events]
      have : on_packet_type_changed m hnd v = m := by
        rw [on_packet_type_changed, hnone]
      rw [this, ih]

theorem lookup_by_handle_mem (rs : List ConnRecord) (hnd : Nat) (r : ConnRecord)
    (hl : lookup_by_handle rs hnd = some r) :
    r ∈ rs ∧ r.state = LinkState.connected hnd := by
  induction rs with
  | nil => cases hl
  | cons r0 rs ih =>
    rw [lookup_by_handle] at hl
    by_cases h0 : r0.state = LinkState.connected hnd
    · rw [if_pos h0] at hl
      injection hl with hl
      subst hl
      exact ⟨List.mem_cons_self _ _, h0⟩
    · rw [if_neg h0] at hl
      rcases ih hl with ⟨hm, hs⟩
      exact ⟨List.mem_cons_of_mem _ hm, hs⟩

/-- C3: a local connect(addr) request emits a connect command carrying addr
to the transport, and on arrival of a success completion event for that
address the on_connect_success callback fires with a link capability whose
remote identity equals addr, the registry holding the promoted record. -/
theorem connect_success_scenario (m : Manager) (addr handle : Nat)
    (hfree : lookup_by_identity m.records addr = none)
    (hhandle : lookup_by_handle m.records handle = none) :
    (create_connection m addr).commands = m.commands ++ [HciCommand.create_connection addr]
    ∧ (on_connection_complete (create_connection m addr) 0 handle addr).invoked
        = m.invoked ++ [AppCallback.on_connect_success addr handle]
    ∧ lookup_by_identity
        (on_connection_complete (create_connection m addr) 0 handle addr).records addr
        = some { identity := addr, state := LinkState.connected handle } := by
  have hm1 : create_connection m addr
      = { m with
          records := m.records ++ [{ identity := addr, state := LinkState.connecting }],
          commands := m.commands ++ [HciCommand.create_connection addr] } := by
    rw [create_connection, hfree]
  have hlook : lookup_by_identity
      (m.records ++ [{ identity := addr, state := LinkState.connecting }]) addr
      = some { identity := addr, state := LinkState.connecting } := by
    rw [lookup_by_identity_append_none _ _ _ hfree, lookup_by_identity, if_pos rfl]
  have hlookh : lookup_by_handle
      (m.records ++ [{ identity := addr, state := LinkState.connecting }]) handle
      = none := by
    rw [lookup_by_handle_append_none _ _ _ hhandle]
    simp [lookup_by_handle]
  have hprom : promote
      (m.records ++ [{ identity := addr, state := LinkState.connecting }]) addr handle
      = m.records ++ [{ identity := addr, state := LinkState.connected handle }] := by
    rw [promote_append_none _ _ _ _ hfree, promote, if_pos rfl]
  have hm2 : on_connection_complete (create_connection m addr) 0 handle addr
      = { m with
          records := m.records ++ [{ identity := addr, state := LinkState.connected handle }],
          commands := m.commands ++ [HciCommand.create_connection addr],
          invoked := m.invoked ++ [AppCallback.on_connect_success addr handle] } := by
    rw [hm1, on_connection_complete]
    simp only [hlook, hlookh, hprom]
    rfl
  refine ⟨by rw [hm1], by rw [hm2], ?_⟩
  rw [hm2]
  simp only
  rw [lookup_by_identity_append_none _ _ _ hfree, lookup_by_identity, if_pos rfl]

theorem connect_success_scenario_witness :
    (create_connection (register_callbacks Manager.empty) 10).commands
        = (register_callbacks Manager.empty).commands ++ [HciCommand.create_connection 10]
    ∧ (on_connection_complete (create_connection (register_callbacks Manager.empty) 10)
          0 291 10).invoked
        = (register_callbacks Manager.empty).invoked
            ++ [AppCallback.on_connect_success 10 291]
    ∧ lookup_by_identity
        (on_connection_complete (create_connection (register_callbacks Manager.empty) 10)
          0 291 10).records 10
        = some { identity := 10, state := LinkState.connected 291 } :=
  connect_success_scenario (register_callbacks Manager.empty) 10 291 rfl rfl

/-- C4: on a disconnection-complete event for a live link, the per-link
disconnect callback fires exactly once with the carried reason code, and
every further sequence of events referencing the now-stale handle leaves
the manager unchanged — the callback never fires a second time. -/
theorem disconnect_callback_exactly_once (m : Manager) (a handle reason : Nat)
    (es : List HandleEvent)
    (hconn : lookup_by_handle m.records handle
        = some { identity := a, state := LinkState.connected handle }) :
    (on_disconnection_complete m handle reason).invoked
        = m.invoked ++ [AppCallback.on_disconnect a reason]
    ∧ run_handle_events (on_disconnection_complete m handle reason) handle es
        = on_disconnection_complete m handle reason := by
  have hm1 : on_disconnection_complete m handle reason
      = { m with
          records := mark_disconnected m.records handle,
          invoked := m.invoked ++ [AppCallback.on_disconnect a reason] } := by
    rw [on_disconnection_complete, hconn]
  refine ⟨by rw [hm1], ?_⟩
  apply handle_events_inert
  rw [hm1]
  exact lookup_mark_disconnected m.records handle

theorem disconnect_callback_exactly_once_witness :
    (on_disconnection_complete
        (on_connection_complete (create_connection (register_callbacks Manager.empty) 10)
          0 291 10) 291 19).invoked
      = (on_connection_complete (create_connection (register_callbacks Manager.empty) 10)
          0 291 10).invoked ++ [AppCallback.on_disconnect 10 19]
    ∧ run_handle_events
        (on_disconnection_complete
          (on_connection_complete (create_connection (register_callbacks Manager.empty) 10)
            0 291 10) 291 19) 291
        [HandleEvent.disconnection_complete 19, HandleEvent.packet_type_changed 60956]
      = on_disconnection_complete
          (on_connection_complete (create_connection (register_callbacks Manager.empty) 10)
            0 291 10) 291 19 :=
  disconnect_callback_exactly_once
    (on_connection_complete (create_connection (register_callbacks Manager.empty) 10) 0 291 10)
    10 291 19
    [HandleEvent.disconnection_complete 19, HandleEvent.packet_type_changed 60956]
    rfl

/-- C5: on a failure completion event for a pending connect, the failure
callback fires exactly once with the remote identity and the carried error
code, the pending record is removed so the identity is connectable again
(a fresh connect emits a new connect command), and a later success
completion for that identity is inert — no link capability is ever handed
to the application for the failed attempt. -/
theorem connect_fail_scenario (m : Manager) (a handle status h2 : Nat)
    (hpend : lookup_by_identity m.records a
        = some { identity := a, state := LinkState.connecting })
    (hfail : status ≠ 0) :
    (on_connection_complete m status handle a).invoked
        = m.invoked ++ [AppCallback.on_connect_fail a status]
    ∧ lookup_by_identity (on_connection_complete m status handle a).records a = none
    ∧ (create_connection (on_connection_complete m status handle a) a).commands
        = (on_connection_complete m status handle a).commands
            ++ [HciCommand.create_connection a]
    ∧ on_connection_complete (on_connection_complete m status handle a) 0 h2 a
        = on_connection_complete m status handle a := by
  have hm1 : on_connection_complete m status handle a
      = { m with
          records := remove_by_identity m.records a,
          invoked := m.invoked ++ [AppCallback.on_connect_fail a status] } := by
    rw [on_connection_complete, hpend]
    simp [hfail]
  have hnone : lookup_by_identity (remove_by_identity m.records a) a = none :=
    lookup_remove_by_identity m.records a
  refine ⟨by rw [hm1], by rw [hm1]; exact hnone, ?_, ?_⟩
  · rw [hm1, create_connection]
    simp only [hnone]
  · rw [hm1, on_connection_complete]
    simp only [hnone]

theorem connect_fail_scenario_witness :
    (on_connection_complete (create_connection (register_callbacks Manager.empty) 10)
        4 291 10).invoked
      = (create_connection (register_callbacks Manager.empty) 10).invoked
          ++ [AppCallback.on_connect_fail 10 4]
    ∧ lookup_by_identity
        (on_connection_complete (create_connection (register_callbacks Manager.empty) 10)
          4 291 10).records 10 = none
    ∧ (create_connection
          (on_connection_complete (create_connection (register_callbacks Manager.empty) 10)
            4 291 10) 10).commands
        = (on_connection_complete (create_connection (register_callbacks Manager.empty) 10)
            4 291 10).commands ++ [HciCommand.create_connection 10]
    ∧ on_connection_complete
        (on_connection_complete (create_connection (register_callbacks Manager.empty) 10)
          4 291 10) 0 291 10
      = on_connection_complete (create_connection (register_callbacks Manager.empty) 10)
          4 291 10 :=
  connect_fail_scenario (create_connection (register_callbacks Manager.empty) 10)
    10 291 4 291 rfl (by decide)

/-- C6: an unsolicited incoming connection-request event arriving while no
global connection callbacks are registered makes the stack emit exactly one
reject-connection-request command; no link record is created and no
application callback is invoked. -/
theorem incoming_request_no_callbacks (m : Manager) (addr : Nat)
    (hreg : m.callbacks_registered = false) :
    (on_incoming_connection_request m addr).commands
        = m.commands ++ [HciCommand.reject_connection_request addr]
    ∧ (on_incoming_connection_request m addr).records = m.records
    ∧ (on_incoming_connection_request m addr).invoked = m.invoked := by
  rw [on_incoming_connection_request, hreg]
  exact ⟨rfl, rfl, rfl⟩

theorem incoming_request_no_callbacks_witness :
    (on_incoming_connection_request Manager.empty 10).commands
        = Manager.empty.commands ++ [HciCommand.reject_connection_request 10]
    ∧ (on_incoming_connection_request Manager.empty 10).records = Manager.empty.records
    ∧ (on_incoming_connection_request Manager.empty 10).invoked = Manager.empty.invoked :=
  incoming_request_no_callbacks Manager.empty 10 rfl

/-- C7: a ChangeConnectionPacketType(v) request on a connected link emits
exactly one command carrying the link's handle and the value v; the
completion event for that handle fires the link's callback with the decoded
value v; a completion event carrying a different handle either fires no
callback at all or fires the callback of a different link, never this
link's. -/
theorem management_command_correlation (m : Manager) (a handle v h2 : Nat)
    (hid : lookup_by_identity m.records a
        = some { identity := a, state := LinkState.connected handle })
    (hhandle : lookup_by_handle m.records handle
        = some { identity := a, state := LinkState.connected handle })
    (hne : h2 ≠ handle)
    (hnodup : (m.records.map ConnRecord.identity).Nodup) :
    (change_connection_packet_type m a v).commands
        = m.commands ++ [HciCommand.change_connection_packet_type handle v]
    ∧ (on_packet_type_changed m handle v).invoked
        = m.invoked ++ [AppCallback.on_packet_type_changed a v]
    ∧ ((on_packet_type_changed m h2 v).invoked = m.invoked
        ∨ ∃ b, b ≠ a ∧ (on_packet_type_changed m h2 v).invoked
            = m.invoked ++ [AppCallback.on_packet_type_changed b v]) := by
  refine ⟨?_, ?_, ?_⟩
  · rw [change_connection_packet_type, hid]
  · rw [on_packet_type_changed, hhandle]
  · cases hl2 : lookup_by_handle m.records h2 with
    | none =>
      left
      rw [on_packet_type_changed, hl2]
    | some r =>
      right
      refine ⟨r.identity, ?_, by rw [on_packet_type_changed, hl2]⟩
      intro hb
      rcases lookup_by_handle_mem m.records h2 r hl2 with ⟨hmem2, hst2⟩
      rcases lookup_by_handle_mem m.records handle _ hhandle with ⟨hmem1, _⟩
      have heq : r = { identity := a, state := LinkState.connected handle } :=
        List.inj_on_of_nodup_map hnodup hmem2 hmem1 (by simpa using hb)
      rw [heq] at hst2
      simp only [LinkState.connected.injEq] at hst2
      exact hne hst2.symm

theorem management_command_correlation_witness :
    (change_connection_packet_type
        (on_connection_complete (create_connection (register_callbacks Manager.empty) 10)
          0 291 10) 10 60956).commands
      = (on_connection_complete (create_connection (register_callbacks Manager.empty) 10)
          0 291 10).commands ++ [HciCommand.change_connection_packet_type 291 60956]
    ∧ (on_packet_type_changed
        (on_connection_complete (create_connection (register_callbacks Manager.empty) 10)
          0 291 10) 291 60956).invoked
      = (on_connection_complete (create_connection (register_callbacks Manager.empty) 10)
          0 291 10).invoked ++ [AppCallback.on_packet_type_changed 10 60956]
    ∧ ((on_packet_type_changed
          (on_connection_complete (create_connection (register_callbacks Manager.empty) 10)
            0 291 10) 5 60956).invoked
        = (on_connection_complete (create_connection (register_callbacks Manager.empty) 10)
            0 291 10).invoked
      ∨ ∃ b, b ≠ 10
          ∧ (on_packet_type_changed
              (on_connection_complete (create_connection (register_callbacks Manager.empty) 10)
                0 291 10) 5 60956).invoked
            = (on_connection_complete (create_connection (register_callbacks Manager.empty) 10)
                0 291 10).invoked ++ [AppCallback.on_packet_type_changed b 60956]) :=
  management_command_correlation
    (on_connection_complete (create_connection (register_callbacks Manager.empty) 10) 0 291 10)
    10 291 60956 5 rfl rfl (by decide) (by decide)

end AclSpec

namespace Ras

/-- C9: GetRasClient is an idempotent accessor — every call returns a
non-null pointer, the first call on a null `instance` allocates and caches
it, a call leaves the state fixed thereafter, and the k-th call of any
sequence starting from a null `instance` returns the very same pointer the
first call allocated. -/
theorem GetRasClient_idempotent (g : RasGlobal) (n k : Nat) :
    (GetRasClient g).1.isSome = true
    ∧ GetRasClient { inst := none, next_alloc := n }
        = (some n, { inst := some n, next_alloc := n + 1 })
    ∧ GetRasClient (GetRasClient g).2 = ((GetRasClient g).1, (GetRasClient g).2)
    ∧ run_get { inst := none, next_alloc := n } k
        = (some n, { inst := some n, next_alloc := n + 1 }) := by
  refine ⟨?_, rfl, ?_, ?_⟩
  · rcases g with ⟨i, na⟩
    cases i <;> simp [GetRasClient]
  · rcases g with ⟨i, na⟩
    cases i <;> simp [GetRasClient]
  · induction k with
    | zero => rfl
    | succ k ih =>
      rw [run_get, ih]
      rfl

theorem FindTrackerByAddress_none_not_mem (ts : List RasTracker) (a : Nat)
    (h : FindTrackerByAddress ts a = none) : a ∉ ts.map RasTracker.address_ := by
  induction ts with
  | nil => simp
  | cons t ts ih =>
    rw [FindTrackerByAddress] at h
    by_cases ht : t.address_ = a
    · rw [if_pos ht] at h
      cases h
    · rw [if_neg ht] at h
      simp only [List.map_cons, List.mem_cons]
      rintro (hh | hh)
      · exact ht hh.symm
      · exact ih h hh

theorem Connect_nodup (resolve : Nat → Nat) (ts : List RasTracker) (a : Nat)
    (h : (ts.map RasTracker.address_).Nodup) :
    ((Connect resolve ts a).map RasTracker.address_).Nodup := by
  rw [Connect]
  cases hf : FindTrackerByAddress ts (resolve a) with
  | some t => exact h
  | none =>
    have hnm := FindTrackerByAddress_none_not_mem ts (resolve a) hf
    simp only [List.map_append, List.map_cons, List.map_nil]
    rw [List.nodup_append]
    refine ⟨h, List.nodup_singleton _, ?_⟩
    intro x hx hx1
    rw [List.mem_singleton] at hx1
    subst hx1
    exact hnm hx

theorem Connect_foldl_nodup (resolve : Nat → Nat) (calls : List Nat) (ts : List RasTracker)
    (h : (ts.map RasTracker.address_).Nodup) :
    ((calls.foldl (Connect resolve) ts).map RasTracker.address_).Nodup := by
  induction calls generalizing ts with
  | nil => exact h
  | cons c cs ih => exact ih _ (Connect_nodup resolve ts c h)

/-- C10: for every sequence of Connect calls starting from the empty
tracker list, the resolved addresses of the trackers are pairwise distinct
— repeated connects to the same resolved address leave at most one tracker
for it. -/
theorem connect_no_duplicate_trackers (resolve : Nat → Nat) (calls : List Nat) (a : Nat) :
    ((calls.foldl (Connect resolve) []).map RasTracker.address_).Nodup
    ∧ ((calls.foldl (Connect resolve) []).map RasTracker.address_).count a ≤ 1 := by
  have h := Connect_foldl_nodup resolve calls [] (by simp)
  exact ⟨h, List.nodup_iff_count_le_one.1 h a⟩

end Ras

